import Mathlib

deriving instance DecidableEq for Except

/-!
Verification development for the attestation-recording engine of
`in_toto/runlib.py`.

The Python source is shallowly embedded as pure Lean functions:

* Filesystem trees are modelled as `FsNode` forests; paths are lists of
  path components (the embedding's `os.path.normpath` is the identity on
  already-normalized component lists, and the host separator is `/`, so
  the source's `replace('\\', '/')` is a no-op here).
* The compiled gitignore-style exclude pattern set (`pathspec.PathSpec`,
  an external collaborator) is abstracted as a predicate
  `String → Bool` applied to full candidate path strings;
  `PathSpec.match_files` returns exactly the matched names, so
  discarding matched names is modelled as `List.filter` on the negation.
* Cryptographic hashing (`securesystemslib.hash`) is abstracted as an
  oracle `hashFile : String → Bool → HashDict` carried by the world;
  the set and order of hashed files is recorded as an effect log.
* Stateful effects (current working directory, written link files,
  launched and killed subprocesses) are threaded through explicit state
  records; a Python `raise` is an `Except.error` / `Option`-style early
  exit that carries the state at the point of the raise.
* The subprocess supervised by `_subprocess_run_duplicate_streams` is
  modelled by a `Proc`: wall-clock time advances by one tick per polling
  iteration, the child appends `outWrites t` / `errWrites t` to its
  redirect buffers during tick `t`, and exits at tick `exitTime`.
-/

namespace InToto

/-- A digest dictionary: algorithm name to lowercase hex digest
(`securesystemslib.formats.HASHDICT_SCHEMA`). -/
abbrev HashDict := List (String × String)

/-- The artifact map built by `record_artifacts_as_dict`: logical path to
digest dictionary, with Python-dict insertion semantics. -/
abbrev ArtifactDict := List (String × HashDict)

/-- Join path components with `/`, the embedding's `os.path.join` plus
separator normalization. -/
def joinPath : List String → String
  | [] => ""
  | [c] => c
  | c :: rest => c ++ "/" ++ joinPath rest

/-- Python `s.startswith(p)`, evaluated on the character lists so it
reduces by kernel computation. -/
def strStartsWith (p s : String) : Bool :=
  p.data.isPrefixOf s.data

/-- Python `s[n:]` (drop the first `n` characters). -/
def strDropChars (s : String) (n : Nat) : String :=
  ⟨s.data.drop n⟩

/-- Python `len(s)` (number of characters). -/
def strLen (s : String) : Nat :=
  s.data.length

/-- Python `key in artifacts_dict`. -/
def dictHasKey (d : ArtifactDict) (k : String) : Bool :=
  d.any (fun kv => kv.1 == k)

/-- Python `artifacts_dict[key] = v`: replace an existing binding or append
a new one. -/
def dictInsert (d : ArtifactDict) (k : String) (v : HashDict) : ArtifactDict :=
  if dictHasKey d k then
    d.map (fun kv => if kv.1 == k then (k, v) else kv)
  else d ++ [(k, v)]

/-- Keep the first element for each key string (`seen` holds the keys
already kept), the embedding of the `set(names)` deduplication in
`_apply_exclude_patterns`. -/
def dedupByAux (key : α → String) (seen : List String) : List α → List α
  | [] => []
  | x :: xs =>
    if seen.contains (key x) then dedupByAux key seen xs
    else x :: dedupByAux key (key x :: seen) xs

/-- Deduplicate a list by a string key, keeping first occurrences. -/
def dedupBy (key : α → String) (l : List α) : List α :=
  dedupByAux key [] l

/-- Insert into a list sorted by a string key. -/
def insertOrdered (key : α → String) (x : α) : List α → List α
  | [] => [x]
  | y :: ys => if key x ≤ key y then x :: y :: ys else y :: insertOrdered key x ys

/-- Insertion sort by a string key, the embedding of `sorted(...)` in
`_apply_exclude_patterns`. -/
def sortByKey (key : α → String) : List α → List α
  | [] => []
  | x :: xs => insertOrdered key x (sortByKey key xs)

/-- Embedding of `_apply_exclude_patterns(names, exclude_filter)`: drop the
names matched by the compiled pattern set, deduplicate, and sort. -/
def _apply_exclude_patterns (key : α → String) (isMatched : String → Bool)
    (names : List α) : List α :=
  sortByKey key ((dedupBy key names).filter (fun n => !(isMatched (key n))))

theorem mem_insertOrdered (key : α → String) (x a : α) (l : List α) :
    a ∈ insertOrdered key x l ↔ a = x ∨ a ∈ l := by
  induction l with
  | nil => simp [insertOrdered]
  | cons y ys ih =>
    simp only [insertOrdered]
    split
    · simp
    · simp only [List.mem_cons, ih]
      tauto

theorem mem_sortByKey (key : α → String) (a : α) (l : List α) :
    a ∈ sortByKey key l ↔ a ∈ l := by
  induction l with
  | nil => simp [sortByKey]
  | cons x xs ih => simp [sortByKey, mem_insertOrdered, ih]

theorem mem_dedupByAux (key : α → String) (a : α) :
    ∀ (l : List α) (seen : List String), a ∈ dedupByAux key seen l → a ∈ l := by
  intro l
  induction l with
  | nil => intro seen h; rw [dedupByAux] at h; exact absurd h (List.not_mem_nil a)
  | cons x xs ih =>
    intro seen h
    rw [dedupByAux] at h
    split at h
    · exact List.mem_cons_of_mem _ (ih _ h)
    · rcases List.mem_cons.mp h with rfl | h2
      · exact List.mem_cons_self _ _
      · exact List.mem_cons_of_mem _ (ih _ h2)

theorem mem_dedupBy (key : α → String) (a : α) (l : List α)
    (h : a ∈ dedupBy key l) : a ∈ l :=
  mem_dedupByAux key a l [] h

theorem mem_apply_exclude_patterns (key : α → String) (isMatched : String → Bool)
    (names : List α) (a : α) (h : a ∈ _apply_exclude_patterns key isMatched names) :
    a ∈ names ∧ isMatched (key a) = false := by
  unfold _apply_exclude_patterns at h
  rw [mem_sortByKey] at h
  have h2 := List.mem_filter.mp h
  refine ⟨mem_dedupBy key a names h2.1, ?_⟩
  simpa using h2.2

/-! ## Filesystem model for artifact scanning -/

/-- A filesystem node: a regular file or a directory with children.
Symbolic links are not modelled (the `follow_symlink_dirs` flag and the
broken-symlink skip in the source have no effect on a link-free tree). -/
inductive FsNode where
  | file (name : String)
  | dir (name : String) (children : List FsNode)

/-- Name of a filesystem node, as listed by `os.walk`. -/
def fsName : FsNode → String
  | .file n => n
  | .dir n _ => n

mutual

/-- Size of a filesystem node, used to bound walk recursion depth. -/
def fsNodeSize : FsNode → Nat
  | .file _ => 1
  | .dir _ cs => 1 + fsForestSize cs

/-- Total size of a forest. -/
def fsForestSize : List FsNode → Nat
  | [] => 0
  | c :: cs => fsNodeSize c + fsForestSize cs

end

/-- Resolve a normalized component path inside a forest, the embedding of
`os.path.isfile` / `os.path.isdir` path resolution relative to the current
working directory. -/
def findNode (forest : List FsNode) : List String → Option FsNode
  | [] => none
  | [n] => forest.find? (fun c => fsName c == n)
  | n :: rest =>
    match forest.find? (fun c => fsName c == n) with
    | some (FsNode.dir _ cs) => findNode cs rest
    | _ => none

/-- Errors raised by `record_artifacts_as_dict`: `ValueError` when the base
path cannot be entered, `in_toto.exceptions.PrefixError` for ambiguous or
colliding left-strip prefixes. -/
inductive ScanErr where
  | valueError
  | prefixError
deriving DecidableEq

/-- External collaborators and process-wide settings visible to
`record_artifacts_as_dict`. `fsAt cwd` is the forest the current working
directory resolves relative paths in; `chdirOk` tells whether `os.chdir`
succeeds; `hashFile path normalize_line_endings` is the
`securesystemslib.hash` digest oracle of `_hash_artifact`;
`settingsBasePath` / `settingsExclude` are
`in_toto.settings.ARTIFACT_BASE_PATH` / `ARTIFACT_EXCLUDE_PATTERNS`
(`none` models a falsy setting, and a compiled pattern list is abstracted
as its match predicate on full path strings). -/
structure ScanWorld where
  fsAt : String → List FsNode
  chdirOk : String → Bool
  hashFile : String → Bool → HashDict
  settingsBasePath : Option String
  settingsExclude : Option (String → Bool)

/-- Mutable process state touched by the scanner: the working directory and
the (ghost) log of file paths hashed so far, in hashing order. -/
structure ScanState where
  cwd : String
  hashed : List String
deriving DecidableEq

/-- Accumulator threaded through a scan: the artifact map being built plus
the hashed-file log. -/
structure WalkAcc where
  dict : ArtifactDict
  hashed : List String
deriving DecidableEq

/-- The prefix-removal loop of `_apply_left_strip`: strip the first prefix
(in list order) that left-matches the path, then stop. -/
def stripFirstLoop (lstrip_paths : List String) (artifact_filepath : String) : String :=
  match lstrip_paths with
  | [] => artifact_filepath
  | p :: rest =>
    if strStartsWith p artifact_filepath then strDropChars artifact_filepath (strLen p)
    else stripFirstLoop rest artifact_filepath

/-- Embedding of `_apply_left_strip(artifact_filepath, artifacts_dict,
lstrip_paths)`. A falsy (absent or empty) prefix list leaves the path
unchanged and skips the duplicate-key check, exactly as the source's
`if lstrip_paths:` does. -/
def _apply_left_strip (artifact_filepath : String) (artifacts_dict : ArtifactDict)
    (lstrip_paths : Option (List String)) : Except ScanErr String :=
  match lstrip_paths with
  | none => .ok artifact_filepath
  | some [] => .ok artifact_filepath
  | some (p :: rest) =>
    let stripped := stripFirstLoop (p :: rest) artifact_filepath
    if dictHasKey artifacts_dict stripped then .error ScanErr.prefixError
    else .ok stripped

/-- Hash a list of already-filtered normalized file paths into the
accumulator: for each path, left-strip it into a key (which may raise
`PrefixError`) and store the digest dict, logging the hash effect. This is
the shared body of the `os.path.isfile` branch and the per-directory file
loop of `record_artifacts_as_dict`. -/
def recordFiles (w : ScanWorld) (nle : Bool) (ls : Option (List String))
    (fpaths : List (List String)) (acc : WalkAcc) : WalkAcc × Option ScanErr :=
  match fpaths with
  | [] => (acc, none)
  | p :: rest =>
    let fp := joinPath p
    match _apply_left_strip fp acc.dict ls with
    | .error e => (acc, some e)
    | .ok key =>
      recordFiles w nle ls rest
        ⟨dictInsert acc.dict key (w.hashFile fp nle), acc.hashed ++ [fp]⟩

/-- Recurse into the surviving subdirectories of one `os.walk` level, in
their post-filter order; `step` is the walk applied to one subdirectory. -/
def walkDirsWith
    (step : List String → List FsNode → WalkAcc → WalkAcc × Option ScanErr) :
    List (List String × List FsNode) → WalkAcc → WalkAcc × Option ScanErr
  | [], acc => (acc, none)
  | (p, cs) :: rest, acc =>
    match step p cs acc with
    | (acc1, some e) => (acc1, some e)
    | (acc1, none) => walkDirsWith step rest acc1

/-- Embedding of one `os.walk` yield in the `os.path.isdir` branch of
`record_artifacts_as_dict`: normalize child directory paths, filter them
through the exclusion matcher before descending, do the same for child
file paths, hash the surviving files, then recurse into the surviving
directories. `fuel` only bounds the recursion depth; callers pass a
size-based bound that can never run out. -/
def walkDir (w : ScanWorld) (matcherOpt : Option (String → Bool)) (nle : Bool)
    (ls : Option (List String)) :
    Nat → List String → List FsNode → WalkAcc → WalkAcc × Option ScanErr
  | 0 => fun _ _ acc => (acc, none)
  | Nat.succ fuel => fun path children acc =>
    let dirPairs := children.filterMap (fun c =>
      match c with
      | FsNode.dir n cs => some (path ++ [n], cs)
      | FsNode.file _ => none)
    let dirPairs2 := match matcherOpt with
      | some m => _apply_exclude_patterns (fun pr => joinPath pr.1) m dirPairs
      | none => dirPairs
    let fpaths := children.filterMap (fun c =>
      match c with
      | FsNode.file n => some (path ++ [n])
      | FsNode.dir _ _ => none)
    let fpaths2 := match matcherOpt with
      | some m => _apply_exclude_patterns joinPath m fpaths
      | none => fpaths
    match recordFiles w nle ls fpaths2 acc with
    | (acc1, some e) => (acc1, some e)
    | (acc1, none) => walkDirsWith (walkDir w matcherOpt nle ls fuel) dirPairs2 acc1

/-- Loop over the remaining normalized artifact root paths: hash file
roots directly, walk directory roots, and skip anything that is neither
(logged and skipped in the source). -/
def scanRoots (w : ScanWorld) (matcherOpt : Option (String → Bool)) (nle : Bool)
    (ls : Option (List String)) (forest : List FsNode)
    (roots : List (List String)) (acc : WalkAcc) : WalkAcc × Option ScanErr :=
  match roots with
  | [] => (acc, none)
  | r :: rest =>
    match findNode forest r with
    | some (FsNode.file _) =>
      match recordFiles w nle ls [r] acc with
      | (acc1, some e) => (acc1, some e)
      | (acc1, none) => scanRoots w matcherOpt nle ls forest rest acc1
    | some (FsNode.dir _ cs) =>
      match walkDir w matcherOpt nle ls (fsForestSize cs + 1) r cs acc with
      | (acc1, some e) => (acc1, some e)
      | (acc1, none) => scanRoots w matcherOpt nle ls forest rest acc1
    | none => scanRoots w matcherOpt nle ls forest rest acc

/-- The Python loop `for prefix_one, prefix_two in
itertools.combinations(lstrip_paths, 2)` with its
`startswith`-either-way test, as a Boolean: does any pair of entries (at
distinct positions) have one entry a left prefix of the other? -/
def hasPrefixClash : List String → Bool
  | [] => false
  | p :: rest =>
    rest.any (fun q => strStartsWith p q || strStartsWith q p) || hasPrefixClash rest

/-- Body of `record_artifacts_as_dict` after the base-path `os.chdir`:
normalize roots (identity on component lists), resolve the effective
exclude patterns, filter the root list, run the ambiguous-strip-prefix
check, scan, and restore the working directory on successful return only
(the source's final `os.chdir(original_cwd)` is not in a `finally`). -/
def recordArtifactsBody (w : ScanWorld) (s : ScanState) (originalCwd : String)
    (artifacts : List (List String)) (exclude_patterns : Option (String → Bool))
    (nle : Bool) (lstrip_paths : Option (List String)) (restoreCwd : Bool) :
    ScanState × Except ScanErr ArtifactDict :=
  let excludeEff := match exclude_patterns with
    | some m => some m
    | none => w.settingsExclude
  let roots := match excludeEff with
    | some m => _apply_exclude_patterns joinPath m artifacts
    | none => artifacts
  let clash := match lstrip_paths with
    | some ps => !ps.isEmpty && hasPrefixClash ps
    | none => false
  if clash then (s, .error ScanErr.prefixError)
  else
    match scanRoots w excludeEff nle lstrip_paths (w.fsAt s.cwd) roots ⟨[], s.hashed⟩ with
    | (acc, some e) => ({ s with hashed := acc.hashed }, .error e)
    | (acc, none) =>
      ({ cwd := if restoreCwd then originalCwd else s.cwd, hashed := acc.hashed },
        .ok acc.dict)

/-- Embedding of `record_artifacts_as_dict(artifacts, exclude_patterns,
base_path, follow_symlink_dirs, normalize_line_endings, lstrip_paths)`.
An empty artifact list returns an empty map immediately; otherwise the
effective base path (argument over setting) is entered with `os.chdir`
(raising `ValueError` on failure) before anything else. The
`follow_symlink_dirs` flag is accepted but has no effect on the link-free
tree model. Schema checks on the exclude-pattern list are subsumed by the
abstract matcher. -/
def record_artifacts_as_dict (w : ScanWorld) (s : ScanState)
    (artifacts : List (List String)) (exclude_patterns : Option (String → Bool))
    (base_path : Option String) (follow_symlink_dirs : Bool)
    (normalize_line_endings : Bool) (lstrip_paths : Option (List String)) :
    ScanState × Except ScanErr ArtifactDict :=
  if artifacts.isEmpty then (s, .ok []) else
  let basePathEff := match base_path with
    | some b => some b
    | none => w.settingsBasePath
  match basePathEff with
  | some b =>
    if w.chdirOk b then
      recordArtifactsBody w { s with cwd := b } s.cwd artifacts exclude_patterns
        normalize_line_endings lstrip_paths true
    else (s, .error ScanErr.valueError)
  | none =>
    recordArtifactsBody w s s.cwd artifacts exclude_patterns
      normalize_line_endings lstrip_paths false

/-! ## Supervised command execution (`_subprocess_run_duplicate_streams`) -/

/-- A child process as observed by the supervisor. Wall-clock time advances
one tick per polling iteration. `poll()` reports the process alive at tick
`t` iff `t < exitTime`; during tick `t < exitTime` the child appends
`outWrites t` / `errWrites t` to its redirected stdout / stderr buffer
(visible to the reader from tick `t + 1` on). `canLaunch` is whether
`subprocess.Popen` succeeds at all. -/
structure Proc where
  canLaunch : Bool
  exitTime : Nat
  exitCode : Int
  outWrites : Nat → String
  errWrites : Nat → String

/-- Content of a redirect buffer at tick `t`: everything the child wrote
during ticks before `t`. -/
def cumWrites (f : Nat → String) : Nat → String
  | 0 => ""
  | Nat.succ t => cumWrites f t ++ f t

/-- Everything the child ever writes to stdout (all of it is in the buffer
once the child has exited). -/
def procFullOut (p : Proc) : String :=
  cumWrites p.outWrites p.exitTime

/-- Everything the child ever writes to stderr. -/
def procFullErr (p : Proc) : String :=
  cumWrites p.errWrites p.exitTime

/-- Errors of the execution stage: `subprocess.TimeoutExpired` and the
`OSError` of a command that cannot be launched. -/
inductive SupErr where
  | timeoutExpired
  | osError
deriving DecidableEq

/-- One bounded read: `reader.read(io.DEFAULT_BUFFER_SIZE)` returns at most
`bufSize` characters of the not-yet-consumed buffer content. -/
def readChunk (buffer : String) (pos bufSize : Nat) : String :=
  ⟨(buffer.data.drop pos).take bufSize⟩

/-- The `while proc.poll() is None` loop of
`_subprocess_run_duplicate_streams`, followed by the single final
`_duplicate_streams()` call after the child exits. Each iteration first
checks the deadline (`time.time() > proc_start_time + timeout`), killing
the child and raising `TimeoutExpired` on expiry, then drains at most one
buffer-sized chunk from each stream. The Boolean result records whether
`proc.kill()` was invoked. -/
def supLoopFuel (p : Proc) (bufSize : Nat) (timeout : Option Nat) :
    Nat → Nat → Nat → Nat → String → String →
    (Except SupErr (Int × String × String)) × Bool
  | 0, _, outPos, errPos, accOut, accErr =>
    let outPart := readChunk (procFullOut p) outPos bufSize
    let errPart := readChunk (procFullErr p) errPos bufSize
    (.ok (p.exitCode, accOut ++ outPart, accErr ++ errPart), false)
  | Nat.succ fuel, t, outPos, errPos, accOut, accErr =>
    match timeout with
    | some tlimit =>
      if tlimit < t then (.error SupErr.timeoutExpired, true)
      else
        let outPart := readChunk (cumWrites p.outWrites t) outPos bufSize
        let errPart := readChunk (cumWrites p.errWrites t) errPos bufSize
        supLoopFuel p bufSize timeout fuel (t + 1) (outPos + strLen outPart)
          (errPos + strLen errPart) (accOut ++ outPart) (accErr ++ errPart)
    | none =>
      let outPart := readChunk (cumWrites p.outWrites t) outPos bufSize
      let errPart := readChunk (cumWrites p.errWrites t) errPos bufSize
      supLoopFuel p bufSize timeout fuel (t + 1) (outPos + strLen outPart)
        (errPos + strLen errPart) (accOut ++ outPart) (accErr ++ errPart)

/-- The supervision loop entered at tick `t`. The first argument of
`supLoopFuel` is `p.exitTime - t`, which is exactly the number of polling
iterations in which `proc.poll()` still returns `None`, so the fuel
pattern-match coincides with the `while proc.poll() is None` condition and
the zero case is the single post-exit drain. -/
def supLoop (p : Proc) (bufSize : Nat) (timeout : Option Nat) (t : Nat)
    (outPos errPos : Nat) (accOut accErr : String) :
    (Except SupErr (Int × String × String)) × Bool :=
  supLoopFuel p bufSize timeout (p.exitTime - t) t outPos errPos accOut accErr

/-- Embedding of `_subprocess_run_duplicate_streams(cmd, timeout)`: launch
the child with its standard streams redirected to temporary files, poll
and drain until it exits or the deadline passes, then read once more "to
grab everything that the process wrote between our last read in the loop
and exiting". Returns the exit code and both captured streams, plus
whether the child was killed. -/
def _subprocess_run_duplicate_streams (p : Proc) (bufSize : Nat)
    (timeout : Option Nat) : (Except SupErr (Int × String × String)) × Bool :=
  if p.canLaunch then supLoop p bufSize timeout 0 0 0 "" ""
  else (.error SupErr.osError, false)

/-! ## Link metadata model

The `Metablock` / `Envelope` / `Metadata` classes and the filename
constants live in `in_toto.models` (outside `runlib.py`); they are
modelled here from the spec (sections 3, 4.5, 6): an envelope owns one
payload and a signature list, both on-disk variants are reconstructible
from the payload and are auto-detected on read, and
`verify_signature(key)` succeeds exactly when the envelope carries a
signature by that key. Signature bytes and canonical serialization are
abstracted away: a signature record is identified by its signing key id. -/

/-- A signing key as far as the orchestrator inspects it: its keyid and
whether the private material is present
(`_check_match_signing_key` rejects keys without a private part). -/
structure SigKey where
  keyid : String
  hasPrivate : Bool
deriving DecidableEq

/-- Modelled from the spec: a `SignatureRecord` attached to an envelope,
abstracted to the id of the key that produced it. -/
structure SignatureRec where
  keyid : String
deriving DecidableEq

/-- Byproducts of the executed command: the empty mapping when no command
was run, or the stdout/stderr/return-value record of `execute_link`. -/
inductive Byproducts where
  | empty
  | streams (stdout stderr : String) (returnValue : Int)
deriving DecidableEq

/-- The attestation payload (`in_toto.models.link.Link`). -/
structure LinkPayload where
  name : String
  materials : ArtifactDict
  products : ArtifactDict
  command : List String
  byproducts : Byproducts
  environment : List (String × String)
deriving DecidableEq

/-- Modelled from the spec: the two on-disk envelope variants
(`Metablock` and the DSSE `Envelope`), each owning one payload and a
signature list; the variant is preserved by serialization and sniffed
back on load. -/
inductive MetadataFile where
  | metablock (signed : LinkPayload) (signatures : List SignatureRec)
  | envelope (payload : LinkPayload) (signatures : List SignatureRec)
deriving DecidableEq

/-- Signatures attached to a metadata file. -/
def mdSignatures : MetadataFile → List SignatureRec
  | .metablock _ sigs => sigs
  | .envelope _ sigs => sigs

/-- Modelled from the spec: `Metadata.get_payload()`. -/
def mdPayload : MetadataFile → LinkPayload
  | .metablock signed _ => signed
  | .envelope payload _ => payload

/-- Modelled from the spec: `create_signature(signer)` appends a signature
record for the signer's key. -/
def mdAddSignature (md : MetadataFile) (sig : SignatureRec) : MetadataFile :=
  match md with
  | .metablock signed sigs => .metablock signed (sigs ++ [sig])
  | .envelope payload sigs => .envelope payload (sigs ++ [sig])

/-- Modelled from the spec: `Metadata.verify_signature(key)` succeeds iff
the envelope carries a signature by the verification key ("Verify the
preliminary signature with that key; fail with
`SignatureVerificationError` on mismatch"). -/
def verifySignatureModel (md : MetadataFile) (verificationKeyid : String) : Bool :=
  (mdSignatures md).any (fun s => s.keyid == verificationKeyid)

/-- `FILENAME_FORMAT = "{step_name}.{keyid:.8}.link"` (modelled from the
spec's filesystem-layout contract; the constant lives in
`in_toto.models.link`). Note the 8-character keyid prefix. -/
def finalFilename (step_name keyid : String) : String :=
  step_name ++ "." ++ ⟨keyid.data.take 8⟩ ++ ".link"

/-- `UNFINISHED_FILENAME_FORMAT = ".{step_name}.{keyid:.8}.link-unfinished"`
(modelled from the spec's filesystem-layout contract). -/
def unfinishedFilename (step_name keyid : String) : String :=
  "." ++ step_name ++ "." ++ ⟨keyid.data.take 8⟩ ++ ".link-unfinished"

/-- Modelled from the spec: `glob.glob` of
`UNFINISHED_FILENAME_FORMAT_GLOB = ".{step_name}.{pattern}.link-unfinished"`
with `pattern="*"`: the filename starts with `.step_name.`, ends with
`.link-unfinished`, and the wildcard part contains no path separator. -/
def globMatchUnfinished (step_name : String) (name : String) : Bool :=
  let d := name.data
  let pre := ("." ++ step_name ++ ".").data
  let suf := ".link-unfinished".data
  decide (pre.length + suf.length ≤ d.length) &&
  (d.take pre.length == pre) &&
  (d.drop (d.length - suf.length) == suf) &&
  !((d.drop pre.length).take (d.length - pre.length - suf.length)).contains '/'

/-- `os.path.join(metadata_directory, fn)` when a metadata directory was
passed. -/
def joinDir (metadata_directory : Option String) (fn : String) : String :=
  match metadata_directory with
  | none => fn
  | some d => d ++ "/" ++ fn

/-! ## Orchestrator world and state -/

/-- Errors surfaced by the orchestrator entry points. -/
inductive OrchErr where
  | valueError
  | formatError
  | prefixError
  | storageError
  | linkNotFound
  | signatureVerification
  | keyNotFound
  | timeoutExpired
  | osError
  | indexError
deriving DecidableEq

/-- Map scanner exceptions to the orchestrator's error taxonomy (they
propagate unchanged in the source). -/
def scanErrToOrch : ScanErr → OrchErr
  | ScanErr.valueError => OrchErr.valueError
  | ScanErr.prefixError => OrchErr.prefixError

/-- External collaborators of the orchestrator: the scanner world, the
behaviour `procFor cmd` of the supervised child for a given command line,
`io.DEFAULT_BUFFER_SIZE`, `in_toto.settings.LINK_CMD_EXEC_TIMEOUT`, the
`LIST_OF_ANY_STRING_SCHEMA.check_match` verdict on a command list, gpg
public-key export (`securesystemslib.gpg.functions.export_pubkey`, `none`
models `KeyNotFoundError`) and gpg signing (requested keyid or `none` for
the ambient default identity, gpg home; returns the actual signing keyid,
`none` modelling a gpg failure). -/
structure OrchWorld where
  scan : ScanWorld
  procFor : List String → Proc
  bufSize : Nat
  settingsTimeout : Nat
  cmdSchemaOk : List String → Bool
  exportPubkey : String → Option String → Option SigKey
  gpgSignKeyid : Option String → Option String → Option String

/-- Durable and observable state threaded through the orchestrator: the
scanner state, the link files on disk (name to content), and the (ghost)
logs of launched and force-killed commands. -/
structure OrchState where
  scan : ScanState
  files : List (String × MetadataFile)
  launched : List (List String)
  killed : List (List String)
deriving DecidableEq

/-- Does a file with this name exist? -/
def hasFile (files : List (String × MetadataFile)) (name : String) : Bool :=
  files.any (fun kv => kv.1 == name)

/-- Load a file's content (`Metadata.load`, which auto-detects the
variant). -/
def lookupFile (files : List (String × MetadataFile)) (name : String) :
    Option MetadataFile :=
  match files.find? (fun kv => kv.1 == name) with
  | some kv => some kv.2
  | none => none

/-- `Metadata.dump(fn)`: create or overwrite. -/
def setFile (files : List (String × MetadataFile)) (name : String)
    (md : MetadataFile) : List (String × MetadataFile) :=
  if hasFile files name then
    files.map (fun kv => if kv.1 == name then (name, md) else kv)
  else files ++ [(name, md)]

/-- `os.remove(fn)`. -/
def removeFile (files : List (String × MetadataFile)) (name : String) :
    List (String × MetadataFile) :=
  files.filter (fun kv => !(kv.1 == name))

/-- Append to the execution logs after a child ran (and possibly was
killed). -/
def logExec (st : OrchState) (cmd : List String) (killedNow : Bool) : OrchState :=
  { st with
    launched := st.launched ++ [cmd],
    killed := if killedNow then st.killed ++ [cmd] else st.killed }

/-- `_check_match_signing_key(signing_key)` fails (raises a
`FormatError`) iff a key was passed whose private part is empty. -/
def checkSigningKeyFails (signing_key : Option SigKey) : Bool :=
  match signing_key with
  | some k => !k.hasPrivate
  | none => false

/-- Embedding of `execute_link(link_cmd_args, record_streams)`: run the
command under the configured timeout, with the standard streams duplicated
and captured when `record_streams` is set and discarded to `DEVNULL`
otherwise, and build the byproducts dictionary. -/
def execute_link (w : OrchWorld) (st : OrchState) (link_cmd_args : List String)
    (record_streams : Bool) : OrchState × Except OrchErr Byproducts :=
  let p := w.procFor link_cmd_args
  if record_streams then
    match _subprocess_run_duplicate_streams p w.bufSize (some w.settingsTimeout) with
    | (.error SupErr.timeoutExpired, killedNow) =>
      (logExec st link_cmd_args killedNow, .error OrchErr.timeoutExpired)
    | (.error SupErr.osError, _) => (st, .error OrchErr.osError)
    | (.ok (code, out, err), killedNow) =>
      (logExec st link_cmd_args killedNow, .ok (Byproducts.streams out err code))
  else
    if p.canLaunch then
      if w.settingsTimeout < p.exitTime then
        (logExec st link_cmd_args true, .error OrchErr.timeoutExpired)
      else
        (logExec st link_cmd_args false, .ok (Byproducts.streams "" "" p.exitCode))
    else (st, .error OrchErr.osError)

/-- The command stage of `in_toto_run`: a truthy command list is
schema-checked (`LIST_OF_ANY_STRING_SCHEMA`) and executed; an empty one
skips both and leaves the byproducts dictionary empty. -/
def runCmdStage (w : OrchWorld) (st : OrchState) (link_cmd_args : List String)
    (record_streams : Bool) : OrchState × Except OrchErr Byproducts :=
  if link_cmd_args.isEmpty then (st, .ok Byproducts.empty)
  else if !(w.cmdSchemaOk link_cmd_args) then (st, .error OrchErr.formatError)
  else execute_link w st link_cmd_args record_streams

/-- The signer-precedence rule of `in_toto_run` plus the signing call:
`signing_key` over `gpg_keyid` over `gpg_use_default`; returns the keyid
of the created signature, or `none` when no credential was supplied (in
which case nothing is signed or written). -/
def signerFor (w : OrchWorld) (signing_key : Option SigKey)
    (gpg_keyid : Option String) (gpg_use_default : Bool)
    (gpg_home : Option String) : Except OrchErr (Option String) :=
  match signing_key with
  | some k => .ok (some k.keyid)
  | none =>
    match gpg_keyid with
    | some g =>
      match w.gpgSignKeyid (some g) gpg_home with
      | some kid => .ok (some kid)
      | none => .error OrchErr.keyNotFound
    | none =>
      if gpg_use_default then
        match w.gpgSignKeyid none gpg_home with
        | some kid => .ok (some kid)
        | none => .error OrchErr.keyNotFound
      else .ok none

/-- Embedding of `in_toto_run(name, material_list, product_list,
link_cmd_args, ...)`: fail-fast format checks, scan materials, run the
command, scan products, assemble the payload, wrap it in the chosen
envelope variant, and, only if a credential was supplied, sign and persist
to `STEP-NAME.KEYID-PREFIX.link` (optionally under
`metadata_directory`). Schema checks whose inputs are abstracted
(keyids, path lists, pattern lists) are subsumed by the model types, and
the `compact_json` flag is dropped because byte-level serialization is
not modelled. (`in_toto_mock` and `in_toto_record_start` are not needed
by any property below and are not embedded.) -/
def in_toto_run (w : OrchWorld) (st : OrchState) (name : String)
    (material_list product_list : List (List String))
    (link_cmd_args : List String) (record_streams : Bool)
    (signing_key : Option SigKey) (gpg_keyid : Option String)
    (gpg_use_default : Bool) (gpg_home : Option String)
    (exclude_patterns : Option (String → Bool)) (base_path : Option String)
    (record_environment : Bool) (normalize_line_endings : Bool)
    (lstrip_paths : Option (List String)) (metadata_directory : Option String)
    (use_dsse : Bool) : OrchState × Except OrchErr MetadataFile :=
  if checkSigningKeyFails signing_key then (st, .error OrchErr.formatError)
  else
    let scanRes := record_artifacts_as_dict w.scan st.scan material_list
      exclude_patterns base_path true normalize_line_endings lstrip_paths
    let st1 := { st with scan := scanRes.1 }
    match scanRes.2 with
    | .error e => (st1, .error (scanErrToOrch e))
    | .ok materials_dict =>
      match runCmdStage w st1 link_cmd_args record_streams with
      | (st2, .error e) => (st2, .error e)
      | (st2, .ok byproducts) =>
        let scanRes2 := record_artifacts_as_dict w.scan st2.scan product_list
          exclude_patterns base_path true normalize_line_endings lstrip_paths
        let st3 := { st2 with scan := scanRes2.1 }
        match scanRes2.2 with
        | .error e => (st3, .error (scanErrToOrch e))
        | .ok products_dict =>
          let environment :=
            if record_environment then [("workdir", st3.scan.cwd)] else []
          let link : LinkPayload :=
            ⟨name, materials_dict, products_dict, link_cmd_args, byproducts,
              environment⟩
          let link_metadata :=
            if use_dsse then MetadataFile.envelope link []
            else MetadataFile.metablock link []
          match signerFor w signing_key gpg_keyid gpg_use_default gpg_home with
          | .error e => (st3, .error e)
          | .ok none => (st3, .ok link_metadata)
          | .ok (some kid) =>
            let md2 := mdAddSignature link_metadata ⟨kid⟩
            let fn := joinDir metadata_directory (finalFilename name kid)
            ({ st3 with files := setFile st3.files fn md2 }, .ok md2)

/-- Locate the preliminary link file in `in_toto_record_stop`: with a
local signing key its name is computed deterministically from the key's
id; otherwise (named or default gpg identity) glob for the
unfinished-filename pattern and require exactly one match, raising
`LinkNotFoundError` on zero matches and on more than one. -/
def locateUnfinished (files : List (String × MetadataFile)) (step_name : String)
    (signing_key : Option SigKey) : Except OrchErr String :=
  match signing_key with
  | some k => .ok (unfinishedFilename step_name k.keyid)
  | none =>
    match (files.map Prod.fst).filter (fun n => globMatchUnfinished step_name n) with
    | [] => .error OrchErr.linkNotFound
    | [f] => .ok f
    | _ :: _ :: _ => .error OrchErr.linkNotFound

/-- Re-derive the verification key id in `in_toto_record_stop`: a local
key verifies itself; a named gpg identity is exported; for the default
gpg identity the keyid is extracted from the preliminary file's own first
signature (trust-on-first-use) and that identity is exported. -/
def verificationKeyid (w : OrchWorld) (md : MetadataFile)
    (signing_key : Option SigKey) (gpg_keyid : Option String)
    (gpg_home : Option String) : Except OrchErr String :=
  match signing_key with
  | some k => .ok k.keyid
  | none =>
    match gpg_keyid with
    | some g =>
      match w.exportPubkey g gpg_home with
      | some pub => .ok pub.keyid
      | none => .error OrchErr.keyNotFound
    | none =>
      match (mdSignatures md).head? with
      | none => .error OrchErr.indexError
      | some sig =>
        match w.exportPubkey sig.keyid gpg_home with
        | some pub => .ok pub.keyid
        | none => .error OrchErr.keyNotFound

/-- The signer used to re-sign the finalized link in
`in_toto_record_stop`: the local signing key if given, otherwise a gpg
signer addressed by the keyid obtained during verification. -/
def stopSignerKeyid (w : OrchWorld) (signing_key : Option SigKey)
    (keyid : String) (gpg_home : Option String) : Except OrchErr String :=
  match signing_key with
  | some k => .ok k.keyid
  | none =>
    match w.gpgSignKeyid (some keyid) gpg_home with
    | some kid => .ok kid
    | none => .error OrchErr.keyNotFound

/-- Embedding of `in_toto_record_stop(step_name, product_list, ...)`:
require a credential, locate and load the preliminary file, verify its
signature (raising `SignatureVerificationError` on mismatch), record
products into the payload, re-wrap in the same envelope variant, re-sign,
persist under the final naming convention, and only then delete the
preliminary file. -/
def in_toto_record_stop (w : OrchWorld) (st : OrchState) (step_name : String)
    (product_list : List (List String)) (signing_key : Option SigKey)
    (gpg_keyid : Option String) (gpg_use_default : Bool)
    (gpg_home : Option String) (exclude_patterns : Option (String → Bool))
    (base_path : Option String) (normalize_line_endings : Bool)
    (lstrip_paths : Option (List String)) (metadata_directory : Option String) :
    OrchState × Except OrchErr Unit :=
  if signing_key.isNone && gpg_keyid.isNone && !gpg_use_default then
    (st, .error OrchErr.valueError)
  else if checkSigningKeyFails signing_key then (st, .error OrchErr.formatError)
  else
    match locateUnfinished st.files step_name signing_key with
    | .error e => (st, .error e)
    | .ok unfinished_fn =>
      match lookupFile st.files unfinished_fn with
      | none => (st, .error OrchErr.storageError)
      | some link_metadata =>
        match verificationKeyid w link_metadata signing_key gpg_keyid gpg_home with
        | .error e => (st, .error e)
        | .ok keyid =>
          if !(verifySignatureModel link_metadata keyid) then
            (st, .error OrchErr.signatureVerification)
          else
            let link := mdPayload link_metadata
            let scanRes := record_artifacts_as_dict w.scan st.scan product_list
              exclude_patterns base_path true normalize_line_endings lstrip_paths
            let st1 := { st with scan := scanRes.1 }
            match scanRes.2 with
            | .error e => (st1, .error (scanErrToOrch e))
            | .ok products_dict =>
              let link2 := { link with products := products_dict }
              let md1 := match link_metadata with
                | MetadataFile.metablock _ _ => MetadataFile.metablock link2 []
                | MetadataFile.envelope _ _ => MetadataFile.envelope link2 []
              match stopSignerKeyid w signing_key keyid gpg_home with
              | .error e => (st1, .error e)
              | .ok newKid =>
                let md2 := mdAddSignature md1 ⟨newKid⟩
                let fn := joinDir metadata_directory (finalFilename step_name keyid)
                ({ st1 with files := removeFile (setFile st1.files fn md2) unfinished_fn },
                  .ok ())

/-! ## General lemmas about the embedding -/

theorem string_eq_of_data {a b : String} (h : a.data = b.data) : a = b := by
  cases a; cases b; exact congrArg String.mk h

theorem append_link_ne_append_unfinished (u v : List Char) :
    u ++ (".link").data ≠ v ++ (".link-unfinished").data := by
  intro h
  have h1 : (u ++ (".link").data).getLast? = some 'k' := by
    rw [List.getLast?_append_of_ne_nil _ (by decide)]; rfl
  have h2 : (v ++ (".link-unfinished").data).getLast? = some 'd' := by
    rw [List.getLast?_append_of_ne_nil _ (by decide)]; rfl
  rw [h, h2] at h1
  exact absurd h1 (by decide)

theorem joinDir_finalFilename_data (mdir : Option String) (s k : String) :
    ∃ v, (joinDir mdir (finalFilename s k)).data = v ++ (".link").data := by
  cases mdir with
  | none =>
    refine ⟨(s ++ "." ++ ⟨k.data.take 8⟩).data, ?_⟩
    simp only [joinDir, finalFilename, String.data_append]
  | some d =>
    refine ⟨(d ++ "/").data ++ (s ++ "." ++ ⟨k.data.take 8⟩).data, ?_⟩
    simp only [joinDir, finalFilename, String.data_append, List.append_assoc]

theorem unfinishedFilename_data (s k : String) :
    ∃ v, (unfinishedFilename s k).data = v ++ (".link-unfinished").data := by
  refine ⟨("." ++ s ++ "." ++ ⟨k.data.take 8⟩).data, ?_⟩
  simp only [unfinishedFilename, String.data_append]

theorem globMatchUnfinished_data {s n : String}
    (h : globMatchUnfinished s n = true) :
    ∃ v, n.data = v ++ (".link-unfinished").data := by
  unfold globMatchUnfinished at h
  simp only [Bool.and_eq_true, beq_iff_eq] at h
  have hC : n.data.drop (n.data.length - (".link-unfinished").data.length) =
      (".link-unfinished").data := h.1.2
  refine ⟨n.data.take (n.data.length - (".link-unfinished").data.length), ?_⟩
  conv_lhs => rw [← List.take_append_drop
    (n.data.length - (".link-unfinished").data.length) n.data]
  rw [hC]

theorem joinDir_finalFilename_ne_unfinishedFilename (mdir : Option String)
    (s k s2 k2 : String) :
    joinDir mdir (finalFilename s k) ≠ unfinishedFilename s2 k2 := by
  intro h
  obtain ⟨u, hu⟩ := joinDir_finalFilename_data mdir s k
  obtain ⟨v, hv⟩ := unfinishedFilename_data s2 k2
  have := congrArg String.data h
  rw [hu, hv] at this
  exact append_link_ne_append_unfinished u v this

theorem joinDir_finalFilename_ne_glob (mdir : Option String) (s k s2 uf : String)
    (h : globMatchUnfinished s2 uf = true) :
    joinDir mdir (finalFilename s k) ≠ uf := by
  intro heq
  obtain ⟨u, hu⟩ := joinDir_finalFilename_data mdir s k
  obtain ⟨v, hv⟩ := globMatchUnfinished_data h
  have := congrArg String.data heq
  rw [hu, hv] at this
  exact append_link_ne_append_unfinished u v this

theorem hasFile_setFile_self (files : List (String × MetadataFile))
    (fn : String) (md : MetadataFile) : hasFile (setFile files fn md) fn = true := by
  unfold setFile
  split
  · next hh =>
    unfold hasFile at hh ⊢
    rw [List.any_eq_true] at hh ⊢
    obtain ⟨kv, hkv, hb⟩ := hh
    refine ⟨(fn, md), List.mem_map.mpr ⟨kv, hkv, ?_⟩, by simp⟩
    simp [beq_iff_eq.mp hb]
  · unfold hasFile
    rw [List.any_eq_true]
    exact ⟨(fn, md), by simp, by simp⟩

theorem hasFile_setFile_of (files : List (String × MetadataFile))
    (fn : String) (md : MetadataFile) (f : String)
    (h : hasFile files f = true) : hasFile (setFile files fn md) f = true := by
  unfold hasFile at h
  rw [List.any_eq_true] at h
  obtain ⟨kv, hkv, hb⟩ := h
  unfold setFile
  split
  · unfold hasFile
    rw [List.any_eq_true]
    by_cases hk : kv.1 == fn
    · refine ⟨(fn, md), List.mem_map.mpr ⟨kv, hkv, by simp [hk]⟩, ?_⟩
      have : f = kv.1 := (beq_iff_eq.mp hb).symm
      simp [this, beq_iff_eq.mp hk]
    · exact ⟨kv, List.mem_map.mpr ⟨kv, hkv, by simp [hk]⟩, hb⟩
  · unfold hasFile
    rw [List.any_eq_true]
    exact ⟨kv, List.mem_append_left _ hkv, hb⟩

theorem hasFile_removeFile_of_ne (files : List (String × MetadataFile))
    (x f : String) (hne : f ≠ x) (h : hasFile files f = true) :
    hasFile (removeFile files x) f = true := by
  unfold hasFile at h
  rw [List.any_eq_true] at h
  obtain ⟨kv, hkv, hb⟩ := h
  unfold hasFile removeFile
  rw [List.any_eq_true]
  refine ⟨kv, List.mem_filter.mpr ⟨hkv, ?_⟩, hb⟩
  have : kv.1 = f := beq_iff_eq.mp hb
  simp [this, hne]

theorem hasFile_of_lookupFile {files : List (String × MetadataFile)}
    {n : String} {md : MetadataFile} (h : lookupFile files n = some md) :
    hasFile files n = true := by
  unfold lookupFile at h
  unfold hasFile
  rw [List.any_eq_true]
  split at h
  · next kv hkv =>
    have h1 : kv ∈ files := List.mem_of_find?_eq_some hkv
    have h2 := List.find?_some hkv
    exact ⟨kv, h1, h2⟩
  · exact absurd h (by simp)

/-! ## Concrete worlds used by scenario theorems and witnesses -/

/-- A scan world over an empty filesystem. -/
def wEmpty : ScanWorld :=
  { fsAt := fun _ => [],
    chdirOk := fun _ => true,
    hashFile := fun _ _ => [("sha256", "d0")],
    settingsBasePath := none,
    settingsExclude := none }

/-- A scan world containing a file `x` and a file `sub/x`. -/
def wSubX : ScanWorld :=
  { fsAt := fun _ => [FsNode.file "x", FsNode.dir "sub" [FsNode.file "x"]],
    chdirOk := fun _ => true,
    hashFile := fun _ _ => [("sha256", "d0")],
    settingsBasePath := none,
    settingsExclude := none }

/-- An initial scanner state. -/
def s0 : ScanState := { cwd := "", hashed := [] }

/-- A child process that exits at the first poll having already written
two characters to stdout. -/
def procBurst : Proc :=
  { canLaunch := true, exitTime := 1, exitCode := 0,
    outWrites := fun t => if t = 0 then "ab" else "",
    errWrites := fun _ => "" }

/-! ## C3 -/

/-- C3: the claim states that for every duplicate-streams execution that
completes within the timeout, the returned stdout/stderr equal the
complete child output because the final drain "captures everything
written between the last poll and process exit". This is false: the final
drain is a single `read(io.DEFAULT_BUFFER_SIZE)`, so with buffer size 1 a
child that exits at the first poll having written `"ab"` gets only `"a"`
captured — the tail of any burst larger than one buffer is silently lost,
contradicting the code's own comment ("grab everything that the process
wrote between our last read in the loop and exiting"). -/
theorem duplicate_streams_final_drain_truncates :
    _subprocess_run_duplicate_streams procBurst 1 none =
      (Except.ok (0, "a", ""), false) ∧
    procFullOut procBurst = "ab" ∧ ("a" : String) ≠ "ab" := by
  refine ⟨by decide, by decide, by decide⟩

/-! ## C6 -/

/-- C6 counterexample: the claim quantifies over every call with a
mutually-prefixing strip-prefix list, but with an empty artifact list the
function returns an empty map immediately — before the prefix check — so
no `PrefixError` is raised even though `["a", "ab"]` is mutually
prefixing. -/
theorem record_artifacts_empty_skips_clash_check :
    hasPrefixClash ["a", "ab"] = true ∧
    record_artifacts_as_dict wEmpty s0 [] none none false false
      (some ["a", "ab"]) = (s0, Except.ok []) := by
  refine ⟨by decide, by decide⟩

/-- C6 (amended): whenever the artifact list is non-empty (and the
effective base path, if any, can be entered), a strip-prefix list
containing two entries of which one is a left prefix of the other makes
`record_artifacts_as_dict` raise `PrefixError` before any file is hashed:
the result is the error and the hashed-file log is unchanged. -/
theorem record_artifacts_clash_raises_before_hashing
    (w : ScanWorld) (s : ScanState) (artifacts : List (List String))
    (ex : Option (String → Bool)) (base_path : Option String)
    (fsd nle : Bool) (ps : List String)
    (hart : artifacts ≠ [])
    (hclash : hasPrefixClash ps = true)
    (hbp : match (match base_path with
      | some b => some b
      | none => w.settingsBasePath) with
      | some b => w.chdirOk b = true
      | none => True) :
    (record_artifacts_as_dict w s artifacts ex base_path fsd nle (some ps)).2 =
      Except.error ScanErr.prefixError ∧
    (record_artifacts_as_dict w s artifacts ex base_path fsd nle (some ps)).1.hashed
      = s.hashed := by
  have hps : ps ≠ [] := by
    intro hnil
    rw [hnil] at hclash
    exact absurd hclash (by decide)
  have hbody : ∀ (s1 : ScanState) (o : String) (rc : Bool),
      recordArtifactsBody w s1 o artifacts ex nle (some ps) rc =
        (s1, Except.error ScanErr.prefixError) := by
    intro s1 o rc
    unfold recordArtifactsBody
    have hclash2 : (!ps.isEmpty && hasPrefixClash ps) = true := by
      cases ps with
      | nil => exact absurd rfl hps
      | cons p rest => simp [hclash]
    simp only [hclash2, if_true]
  have hne : artifacts.isEmpty = false := by
    cases artifacts with
    | nil => exact absurd rfl hart
    | cons a rest => rfl
  unfold record_artifacts_as_dict
  rw [hne]
  simp only [Bool.false_eq_true, if_false]
  cases hb : (match base_path with
    | some b => some b
    | none => w.settingsBasePath) with
  | none =>
    simp [hbody]
  | some b =>
    have hchd : w.chdirOk b = true := by
      rw [hb] at hbp
      exact hbp
    simp [hchd, hbody]

/-- C6 witness: the amended theorem applied to a concrete non-empty
artifact list and the clashing prefixes `["a", "ab"]`. -/
theorem record_artifacts_clash_witness :
    (record_artifacts_as_dict wEmpty s0 [["x"]] none none false false
      (some ["a", "ab"])).2 = Except.error ScanErr.prefixError ∧
    (record_artifacts_as_dict wEmpty s0 [["x"]] none none false false
      (some ["a", "ab"])).1.hashed = s0.hashed :=
  record_artifacts_clash_raises_before_hashing wEmpty s0 [["x"]] none none
    false false ["a", "ab"] (by decide) (by decide) (by trivial)

/-! ## C7 -/

/-- The spec's step 7, written independently of the code: "the first
matching prefix (in list order) is removed from the key". -/
def specStripFirst (lstrip_paths : List String) (fp : String) : String :=
  match lstrip_paths.find? (fun p => strStartsWith p fp) with
  | some p => strDropChars fp (strLen p)
  | none => fp

theorem stripFirstLoop_eq_spec (ps : List String) (fp : String) :
    stripFirstLoop ps fp = specStripFirst ps fp := by
  induction ps with
  | nil => rfl
  | cons p rest ih =>
    unfold stripFirstLoop specStripFirst
    rw [List.find?_cons]
    cases hp : strStartsWith p fp with
    | true => simp
    | false =>
      simp only [Bool.false_eq_true, if_false]
      rw [ih]
      rfl

/-- C7: with a non-empty strip-prefix list, `_apply_left_strip` removes
the first matching prefix in list order from the path to form the key and
raises `PrefixError` exactly when the resulting key is already present in
the artifact map being built; in particular the spec's scenario — files
`x` and `sub/x` scanned with strip prefix `sub/` — collides on key `x`
and makes `record_artifacts_as_dict` raise `PrefixError`. -/
theorem apply_left_strip_first_match_collision :
    (∀ (ps : List String) (fp : String) (d : ArtifactDict), ps ≠ [] →
      _apply_left_strip fp d (some ps) =
        (if dictHasKey d (specStripFirst ps fp) then
          Except.error ScanErr.prefixError
         else Except.ok (specStripFirst ps fp))) ∧
    record_artifacts_as_dict wSubX s0 [["x"], ["sub", "x"]] none none false
      false (some ["sub/"]) =
      ({ cwd := "", hashed := ["x"] }, Except.error ScanErr.prefixError) := by
  constructor
  · intro ps fp d hps
    cases ps with
    | nil => exact absurd rfl hps
    | cons p rest =>
      simp only [_apply_left_strip, stripFirstLoop_eq_spec]
  · decide

/-- C7 witness: the general half of the theorem applied to the colliding
concrete inputs of the scenario. -/
theorem apply_left_strip_witness :
    _apply_left_strip "sub/x" [("x", [("sha256", "d0")])] (some ["sub/"]) =
      Except.error ScanErr.prefixError := by
  rw [apply_left_strip_first_match_collision.1 ["sub/"] "sub/x"
    [("x", [("sha256", "d0")])] (by decide)]
  decide

/-! ## C9 -/

/-- Case analysis on the working directory left behind by a scan with a
workable base path, stated over the projections of the result. -/
theorem record_artifacts_cwd_aux
    (w : ScanWorld) (s : ScanState) (artifacts : List (List String))
    (ex : Option (String → Bool)) (b : String) (fsd nle : Bool)
    (ls : Option (List String))
    (hch : w.chdirOk b = true) :
    (∀ e, (record_artifacts_as_dict w s artifacts ex (some b) fsd nle ls).2 =
        Except.error e →
      (record_artifacts_as_dict w s artifacts ex (some b) fsd nle ls).1.cwd = b) ∧
    (∀ dict, (record_artifacts_as_dict w s artifacts ex (some b) fsd nle ls).2 =
        Except.ok dict →
      (record_artifacts_as_dict w s artifacts ex (some b) fsd nle ls).1.cwd = s.cwd) := by
  unfold record_artifacts_as_dict
  by_cases hemp : artifacts.isEmpty
  · rw [if_pos hemp]
    exact ⟨fun e he => absurd he (by simp), fun dict _ => rfl⟩
  · rw [if_neg hemp]
    simp only [hch, if_true]
    simp only [recordArtifactsBody]
    split
    · exact ⟨fun e _ => rfl, fun dict hd => absurd hd (by simp)⟩
    · split
      · exact ⟨fun e _ => rfl, fun dict hd => absurd hd (by simp)⟩
      · exact ⟨fun e he => absurd he (by simp), fun dict _ => rfl⟩

/-- C9: when `record_artifacts_as_dict` is called with a base path it
enters it (`os.chdir`) for the duration of the scan, and the original
working directory is restored on successful return only: on any error
raised after the directory change (e.g. a `PrefixError`) the process
working directory is left at the base path, because the restoring
`os.chdir` is not in a `finally` block. -/
theorem record_artifacts_base_path_cwd
    (w : ScanWorld) (s : ScanState) (artifacts : List (List String))
    (ex : Option (String → Bool)) (b : String) (fsd nle : Bool)
    (ls : Option (List String)) (s2 : ScanState) (r : Except ScanErr ArtifactDict)
    (hch : w.chdirOk b = true)
    (hrec : record_artifacts_as_dict w s artifacts ex (some b) fsd nle ls = (s2, r)) :
    (∀ e, r = Except.error e → s2.cwd = b) ∧
    (∀ dict, r = Except.ok dict → s2.cwd = s.cwd) := by
  have haux := record_artifacts_cwd_aux w s artifacts ex b fsd nle ls hch
  have h1 : (record_artifacts_as_dict w s artifacts ex (some b) fsd nle ls).1 = s2 := by
    rw [hrec]
  have h2 : (record_artifacts_as_dict w s artifacts ex (some b) fsd nle ls).2 = r := by
    rw [hrec]
  constructor
  · intro e he
    have := haux.1 e (h2.trans he)
    rw [h1] at this
    exact this
  · intro dict hd
    have := haux.2 dict (h2.trans hd)
    rw [h1] at this
    exact this

/-! ## C10 and C8: `in_toto_run` frame properties -/

/-- The command stage never touches the link files on disk. -/
theorem runCmdStage_files (w : OrchWorld) (st : OrchState)
    (cmd : List String) (rs : Bool) :
    (runCmdStage w st cmd rs).1.files = st.files := by
  simp only [runCmdStage, execute_link, logExec]
  split
  · rfl
  · split
    · rfl
    · split
      · split <;> rfl
      · split
        · split <;> rfl
        · rfl

/-- The command stage leaves the launch log unchanged when the command
list is empty and returns the empty byproducts dictionary. -/
theorem runCmdStage_empty (w : OrchWorld) (st : OrchState) (rs : Bool) :
    runCmdStage w st [] rs = (st, Except.ok Byproducts.empty) := rfl

/-- No-credential calls resolve to no signer. -/
theorem signerFor_none (w : OrchWorld) (gh : Option String) :
    signerFor w none none false gh = Except.ok none := rfl

/-- C10: a call to `in_toto_run` with an empty command list launches no
subprocess (the launch log is unchanged, for every world — in particular
no command-format validation is consulted, since `cmdSchemaOk` is only
reached for a non-empty list), and the byproducts field of the resulting
link payload is the empty mapping rather than a stdout/stderr/return-value
record. -/
theorem in_toto_run_empty_command
    (w : OrchWorld) (st : OrchState) (name : String)
    (mats prods : List (List String)) (rs : Bool) (sk : Option SigKey)
    (gk : Option String) (gud : Bool) (gh : Option String)
    (ex : Option (String → Bool)) (bp : Option String) (re nle : Bool)
    (ls : Option (List String)) (mdir : Option String) (dsse : Bool)
    (st2 : OrchState) (r : Except OrchErr MetadataFile)
    (h : in_toto_run w st name mats prods [] rs sk gk gud gh ex bp re nle ls
      mdir dsse = (st2, r)) :
    st2.launched = st.launched ∧
    (∀ md, r = Except.ok md → (mdPayload md).byproducts = Byproducts.empty) := by
  have h1 : (in_toto_run w st name mats prods [] rs sk gk gud gh ex bp re nle ls
      mdir dsse).1 = st2 := by rw [h]
  have h2 : (in_toto_run w st name mats prods [] rs sk gk gud gh ex bp re nle ls
      mdir dsse).2 = r := by rw [h]
  rw [← h1, ← h2]
  clear h h1 h2
  simp only [in_toto_run, runCmdStage_empty]
  split
  · exact ⟨rfl, fun md hmd => absurd hmd (by simp)⟩
  · split
    · exact ⟨rfl, fun md hmd => absurd hmd (by simp)⟩
    · split
      · exact ⟨rfl, fun md hmd => absurd hmd (by simp)⟩
      · split
        · exact ⟨rfl, fun md hmd => absurd hmd (by simp)⟩
        · refine ⟨rfl, fun md hmd => ?_⟩
          have := (Except.ok.injEq .. ▸ hmd : _ = md)
          subst this
          cases dsse <;> rfl
        · refine ⟨rfl, fun md hmd => ?_⟩
          have := (Except.ok.injEq .. ▸ hmd : _ = md)
          subst this
          cases dsse <;> rfl

/-- An orchestrator world whose command-schema check rejects everything
(so that C10's "no validation is performed" is visible) over an empty
filesystem. -/
def wOrchStrict : OrchWorld :=
  { scan := wEmpty, procFor := fun _ => procBurst, bufSize := 1,
    settingsTimeout := 10, cmdSchemaOk := fun _ => false,
    exportPubkey := fun _ _ => none, gpgSignKeyid := fun _ _ => none }

/-- An orchestrator world accepting every command schema. -/
def wOrchLax : OrchWorld :=
  { scan := wEmpty, procFor := fun _ => procBurst, bufSize := 1,
    settingsTimeout := 10, cmdSchemaOk := fun _ => true,
    exportPubkey := fun _ _ => none, gpgSignKeyid := fun _ _ => none }

/-- An empty orchestrator state. -/
def stEmpty : OrchState :=
  { scan := s0, files := [], launched := [], killed := [] }

/-- A pre-existing unsigned link file. -/
def mdKeep : MetadataFile :=
  MetadataFile.metablock ⟨"n", [], [], [], Byproducts.empty, []⟩ []

/-- An orchestrator state holding one pre-existing link file. -/
def stKeep : OrchState :=
  { scan := s0, files := [("keep.link", mdKeep)], launched := [], killed := [] }

/-- C10 witness: the theorem applied to a concrete empty-command run, in a
world whose command-schema check rejects every list (showing no
validation is consulted). -/
theorem in_toto_run_empty_command_witness :
    (in_toto_run wOrchStrict stEmpty "step" [] [] [] true none none
      false none none none false false none none false).1.launched =
      stEmpty.launched ∧
    (∀ md, (in_toto_run wOrchStrict stEmpty "step" [] [] [] true none none
        false none none none false false none none false).2 = Except.ok md →
      (mdPayload md).byproducts = Byproducts.empty) :=
  in_toto_run_empty_command wOrchStrict stEmpty "step" [] [] true
    none none false none none none false false none none false _ _ rfl

/-- C8: a single-shot `in_toto_run` call with no credential (no signing
key, no gpg keyid, `gpg_use_default` false) writes no link file to disk
on any path, and when it returns normally the returned metadata is
unsigned (its signature list is empty). -/
theorem in_toto_run_no_credential
    (w : OrchWorld) (st : OrchState) (name : String)
    (mats prods : List (List String)) (cmd : List String) (rs : Bool)
    (gh : Option String) (ex : Option (String → Bool)) (bp : Option String)
    (re nle : Bool) (ls : Option (List String)) (mdir : Option String)
    (dsse : Bool) (st2 : OrchState) (r : Except OrchErr MetadataFile)
    (h : in_toto_run w st name mats prods cmd rs none none false gh ex bp re
      nle ls mdir dsse = (st2, r)) :
    st2.files = st.files ∧
    (∀ md, r = Except.ok md → mdSignatures md = []) := by
  have h1 : (in_toto_run w st name mats prods cmd rs none none false gh ex bp
      re nle ls mdir dsse).1 = st2 := by rw [h]
  have h2 : (in_toto_run w st name mats prods cmd rs none none false gh ex bp
      re nle ls mdir dsse).2 = r := by rw [h]
  rw [← h1, ← h2]
  clear h h1 h2
  simp only [in_toto_run, signerFor_none]
  split
  · exact ⟨rfl, fun md hmd => absurd hmd (by simp)⟩
  · split
    · exact ⟨rfl, fun md hmd => absurd hmd (by simp)⟩
    · split
      · next st2x e heq =>
        have hf : st2x.files = st.files := by
          have h0 := congrArg (fun q => q.1.files) heq
          simp only at h0
          rw [runCmdStage_files] at h0
          exact h0.symm
        exact ⟨hf, fun md hmd => absurd hmd (by simp)⟩
      · next st2x byp heq =>
        have hf : st2x.files = st.files := by
          have h0 := congrArg (fun q => q.1.files) heq
          simp only at h0
          rw [runCmdStage_files] at h0
          exact h0.symm
        split
        · exact ⟨hf, fun md hmd => absurd hmd (by simp)⟩
        · refine ⟨hf, fun md hmd => ?_⟩
          have := (Except.ok.injEq .. ▸ hmd : _ = md)
          subst this
          cases dsse <;> rfl

/-- C8 witness: the theorem applied to a concrete credential-free run over
a state holding one pre-existing link file. -/
theorem in_toto_run_no_credential_witness :
    (in_toto_run wOrchLax stKeep "step" [] [] [] false none none false none
      none none false false none none false).1.files = stKeep.files ∧
    (∀ md, (in_toto_run wOrchLax stKeep "step" [] [] [] false none none false
        none none none false false none none false).2 = Except.ok md →
      mdSignatures md = []) :=
  in_toto_run_no_credential wOrchLax stKeep "step" [] [] [] false none none
    none false false none none false _ _ rfl

/-! ## C5: locating the preliminary file by glob -/

/-- C5: a `recordStop` call relying on the default external (gpg)
identity locates the preliminary file by globbing the
unfinished-filename pattern for the step name and requires exactly one
match: zero matches raise `LinkNotFoundError`, and more than one match
also raises `LinkNotFoundError`. (The error message naming all candidate
files is not modelled; only the raised exception is.) -/
theorem record_stop_glob_exactly_one
    (w : OrchWorld) (st : OrchState) (step : String)
    (prods : List (List String)) (gh : Option String)
    (ex : Option (String → Bool)) (bp : Option String) (nle : Bool)
    (ls : Option (List String)) (mdir : Option String) :
    ((st.files.map Prod.fst).filter (fun n => globMatchUnfinished step n) = [] →
      in_toto_record_stop w st step prods none none true gh ex bp nle ls mdir =
        (st, Except.error OrchErr.linkNotFound)) ∧
    (∀ f1 f2 rest,
      (st.files.map Prod.fst).filter (fun n => globMatchUnfinished step n) =
        f1 :: f2 :: rest →
      in_toto_record_stop w st step prods none none true gh ex bp nle ls mdir =
        (st, Except.error OrchErr.linkNotFound)) := by
  constructor
  · intro hglob
    simp only [in_toto_record_stop, locateUnfinished, hglob]
    rfl
  · intro f1 f2 rest hglob
    simp only [in_toto_record_stop, locateUnfinished, hglob]
    rfl

/-- An unfinished-file body used by glob witnesses. -/
def mdPrelim : MetadataFile :=
  MetadataFile.metablock ⟨"s", [("m", [("sha256", "h1")])], [], [],
    Byproducts.empty, []⟩ [⟨"KEYAAAABBBB"⟩]

/-- A state holding two ambiguous preliminary files for step `s`. -/
def stTwoPrelim : OrchState :=
  { scan := s0,
    files := [(".s.aaaaaaaa.link-unfinished", mdPrelim),
      (".s.bbbbbbbb.link-unfinished", mdPrelim)],
    launched := [], killed := [] }

/-- C5 witness: with no preliminary file on disk the default-gpg stop
raises `LinkNotFoundError`, and with two matching preliminary files it
also raises `LinkNotFoundError`. -/
theorem record_stop_glob_exactly_one_witness :
    in_toto_record_stop wOrchLax stEmpty "s" [] none none true none none none
      false none none = (stEmpty, Except.error OrchErr.linkNotFound) ∧
    in_toto_record_stop wOrchLax stTwoPrelim "s" [] none none true none none
      none false none none = (stTwoPrelim, Except.error OrchErr.linkNotFound) := by
  constructor
  · exact (record_stop_glob_exactly_one wOrchLax stEmpty "s" [] none none none
      false none none).1 (by decide)
  · exact (record_stop_glob_exactly_one wOrchLax stTwoPrelim "s" [] none none
      none false none none).2 ".s.aaaaaaaa.link-unfinished"
      ".s.bbbbbbbb.link-unfinished" [] (by decide)

/-! ## C2: timeout kills the child, raises, and persists nothing -/

/-- If the deadline passes while the child is still alive, the polling
loop kills the child and raises `TimeoutExpired`. -/
theorem supLoopFuel_timeout (p : Proc) (buf tlimit : Nat) :
    ∀ (fuel t outPos errPos : Nat) (accOut accErr : String),
      t + fuel = p.exitTime → t ≤ tlimit + 1 → tlimit + 1 < p.exitTime →
      supLoopFuel p buf (some tlimit) fuel t outPos errPos accOut accErr =
        (Except.error SupErr.timeoutExpired, true) := by
  intro fuel
  induction fuel with
  | zero =>
    intro t outPos errPos accOut accErr hsum ht hT
    omega
  | succ fuel ih =>
    intro t outPos errPos accOut accErr hsum ht hT
    rw [supLoopFuel]
    by_cases hlt : tlimit < t
    · rw [if_pos hlt]
    · rw [if_neg hlt]
      exact ih (t + 1) _ _ _ _ (by omega) (by omega) hT

/-- A supervised command that is still running one tick after the deadline
is force-killed and raises `TimeoutExpired` instead of returning any
(partial) output. -/
theorem duplicate_streams_timeout (p : Proc) (buf tlimit : Nat)
    (hl : p.canLaunch = true) (hT : tlimit + 1 < p.exitTime) :
    _subprocess_run_duplicate_streams p buf (some tlimit) =
      (Except.error SupErr.timeoutExpired, true) := by
  unfold _subprocess_run_duplicate_streams
  rw [hl]
  simp only [if_true]
  unfold supLoop
  exact supLoopFuel_timeout p buf tlimit (p.exitTime - 0) 0 0 0 "" ""
    (by omega) (by omega) hT

/-- C2: a command whose execution exceeds the configured timeout makes the
supervisor force-terminate the child and raise `TimeoutError`
(`subprocess.TimeoutExpired`) without returning any result — the error
carries no captured output — and the surrounding `in_toto_run` call then
propagates the error and writes no final or preliminary link file: the
on-disk file map is unchanged and the child is logged as killed. -/
theorem command_timeout_discards_output_and_writes_nothing :
    (∀ (p : Proc) (buf tlimit : Nat), p.canLaunch = true →
      tlimit + 1 < p.exitTime →
      _subprocess_run_duplicate_streams p buf (some tlimit) =
        (Except.error SupErr.timeoutExpired, true)) ∧
    (∀ (w : OrchWorld) (st : OrchState) (name : String)
      (mats prods : List (List String)) (cmd : List String)
      (sk : Option SigKey) (gk : Option String) (gud : Bool)
      (gh : Option String) (ex : Option (String → Bool)) (bp : Option String)
      (re nle : Bool) (ls : Option (List String)) (mdir : Option String)
      (dsse : Bool) (matsDict : ArtifactDict),
      checkSigningKeyFails sk = false →
      cmd.isEmpty = false →
      w.cmdSchemaOk cmd = true →
      (w.procFor cmd).canLaunch = true →
      w.settingsTimeout + 1 < (w.procFor cmd).exitTime →
      (record_artifacts_as_dict w.scan st.scan mats ex bp true nle ls).2 =
        Except.ok matsDict →
      (in_toto_run w st name mats prods cmd true sk gk gud gh ex bp re nle ls
        mdir dsse).2 = Except.error OrchErr.timeoutExpired ∧
      (in_toto_run w st name mats prods cmd true sk gk gud gh ex bp re nle ls
        mdir dsse).1.files = st.files ∧
      (in_toto_run w st name mats prods cmd true sk gk gud gh ex bp re nle ls
        mdir dsse).1.killed = st.killed ++ [cmd]) := by
  constructor
  · exact fun p buf tlimit hl hT => duplicate_streams_timeout p buf tlimit hl hT
  · intro w st name mats prods cmd sk gk gud gh ex bp re nle ls mdir dsse
      matsDict hck hcmd hschema hl hT hm
    have hsup := duplicate_streams_timeout (w.procFor cmd) w.bufSize
      w.settingsTimeout hl hT
    simp only [in_toto_run, hck, Bool.false_eq_true, if_false, hm,
      runCmdStage, hcmd, hschema, Bool.not_true, execute_link, hsup, logExec]
    exact ⟨rfl, rfl, rfl⟩

/-- A child process that runs well past the configured deadline. -/
def procSlow : Proc :=
  { canLaunch := true, exitTime := 10, exitCode := 0,
    outWrites := fun _ => "z", errWrites := fun _ => "" }

/-- An orchestrator world whose every command is `procSlow` under a
3-tick timeout. -/
def wOrchSlow : OrchWorld :=
  { scan := wEmpty, procFor := fun _ => procSlow, bufSize := 8192,
    settingsTimeout := 3, cmdSchemaOk := fun _ => true,
    exportPubkey := fun _ _ => none, gpgSignKeyid := fun _ _ => none }

/-- C2 witness: both halves of the theorem applied to the slow process
and a concrete `in_toto_run` call. -/
theorem command_timeout_witness :
    _subprocess_run_duplicate_streams procSlow 8192 (some 3) =
      (Except.error SupErr.timeoutExpired, true) ∧
    (in_toto_run wOrchSlow stEmpty "step" [] [] ["sleep", "100"] true none
      none false none none none false false none none false).2 =
      Except.error OrchErr.timeoutExpired ∧
    (in_toto_run wOrchSlow stEmpty "step" [] [] ["sleep", "100"] true none
      none false none none none false false none none false).1.files =
      stEmpty.files ∧
    (in_toto_run wOrchSlow stEmpty "step" [] [] ["sleep", "100"] true none
      none false none none none false false none none false).1.killed =
      stEmpty.killed ++ [["sleep", "100"]] := by
  refine ⟨command_timeout_discards_output_and_writes_nothing.1 procSlow 8192 3
    (by decide) (by decide), ?_⟩
  exact command_timeout_discards_output_and_writes_nothing.2 wOrchSlow stEmpty
    "step" [] [] ["sleep", "100"] none none false none none none false false
    none none false [] (by decide) (by decide) (by decide) (by decide)
    (by decide) (by decide)

/-! ## C1: the preliminary file outlives every failure -/

/-- Any successfully located preliminary filename is either the
deterministic unfinished filename (local-key case) or a glob match of the
unfinished pattern. -/
theorem locateUnfinished_shape (files : List (String × MetadataFile))
    (step : String) (sk : Option SigKey) (uf : String)
    (h : locateUnfinished files step sk = Except.ok uf) :
    (∃ k, uf = unfinishedFilename step k) ∨ globMatchUnfinished step uf = true := by
  cases sk with
  | some k =>
    left
    simp only [locateUnfinished] at h
    injection h with h2
    exact ⟨k.keyid, h2.symm⟩
  | none =>
    right
    simp only [locateUnfinished] at h
    split at h
    · exact absurd h (by simp)
    · next f hfilt =>
      have hmem : f ∈ (files.map Prod.fst).filter
          (fun n => globMatchUnfinished step n) := by
        rw [hfilt]
        exact List.mem_cons_self f []
      injection h with h2
      rw [← h2]
      exact (List.mem_filter.mp hmem).2
    · exact absurd h (by simp)

/-- The final link filename can never collide with the preliminary
filename it was located as (one ends in `.link`, the other in
`.link-unfinished`). -/
theorem finalFilename_ne_located (mdir : Option String) (step kid : String)
    (files : List (String × MetadataFile)) (sk : Option SigKey) (uf : String)
    (h : locateUnfinished files step sk = Except.ok uf) :
    joinDir mdir (finalFilename step kid) ≠ uf := by
  rcases locateUnfinished_shape files step sk uf h with ⟨k, rfl⟩ | hglob
  · exact joinDir_finalFilename_ne_unfinishedFilename mdir step kid step k
  · exact joinDir_finalFilename_ne_glob mdir step kid step uf hglob

/-- C1: in `in_toto_record_stop` the preliminary (unfinished) link file is
deleted only after the final link file has been successfully written:
whenever any file present before the call is gone afterwards, the call
returned successfully and the final link file for the step is on disk
(first conjunct); and if signature verification of the preliminary file
fails because it was signed with a key other than the one supplied (here:
a gpg keyid whose exported public key does not match the preliminary
file's signature), `SignatureVerificationError` is raised, nothing on
disk changes, and in particular the preliminary file is not deleted
(second conjunct). -/
theorem record_stop_deletes_only_after_final_write :
    (∀ (w : OrchWorld) (st : OrchState) (step : String)
      (prods : List (List String)) (sk : Option SigKey) (gk : Option String)
      (gud : Bool) (gh : Option String) (ex : Option (String → Bool))
      (bp : Option String) (nle : Bool) (ls : Option (List String))
      (mdir : Option String) (st2 : OrchState) (r : Except OrchErr Unit)
      (f : String),
      in_toto_record_stop w st step prods sk gk gud gh ex bp nle ls mdir =
        (st2, r) →
      hasFile st.files f = true → hasFile st2.files f = false →
      r = Except.ok () ∧
      ∃ kid, hasFile st2.files (joinDir mdir (finalFilename step kid)) = true) ∧
    (∀ (w : OrchWorld) (st : OrchState) (step : String)
      (prods : List (List String)) (g : String) (gh : Option String)
      (ex : Option (String → Bool)) (bp : Option String) (nle : Bool)
      (ls : Option (List String)) (mdir : Option String) (uf : String)
      (md : MetadataFile) (pub : SigKey),
      (st.files.map Prod.fst).filter (fun n => globMatchUnfinished step n) =
        [uf] →
      lookupFile st.files uf = some md →
      w.exportPubkey g gh = some pub →
      verifySignatureModel md pub.keyid = false →
      in_toto_record_stop w st step prods none (some g) false gh ex bp nle ls
        mdir = (st, Except.error OrchErr.signatureVerification) ∧
      hasFile st.files uf = true) := by
  constructor
  · intro w st step prods sk gk gud gh ex bp nle ls mdir st2 r f hrec hf hnot
    simp only [in_toto_record_stop] at hrec
    split at hrec
    · cases hrec
      have hx : hasFile st.files f = false := hnot
      rw [hf] at hx
      exact Bool.noConfusion hx
    · split at hrec
      · cases hrec
        have hx : hasFile st.files f = false := hnot
        rw [hf] at hx
        exact Bool.noConfusion hx
      · split at hrec
        · cases hrec
          have hx : hasFile st.files f = false := hnot
          rw [hf] at hx
          exact Bool.noConfusion hx
        · next uf hloc =>
          split at hrec
          · cases hrec
            have hx : hasFile st.files f = false := hnot
            rw [hf] at hx
            exact Bool.noConfusion hx
          · next lm hlook =>
            split at hrec
            · cases hrec
              have hx : hasFile st.files f = false := hnot
              rw [hf] at hx
              exact Bool.noConfusion hx
            · next keyid hvk =>
              split at hrec
              · cases hrec
                have hx : hasFile st.files f = false := hnot
                rw [hf] at hx
                exact Bool.noConfusion hx
              · split at hrec
                · cases hrec
                  have hx : hasFile st.files f = false := hnot
                  rw [hf] at hx
                  exact Bool.noConfusion hx
                · split at hrec
                  · cases hrec
                    have hx : hasFile st.files f = false := hnot
                    rw [hf] at hx
                    exact Bool.noConfusion hx
                  · next newKid hsign =>
                    cases hrec
                    refine ⟨rfl, keyid, ?_⟩
                    exact hasFile_removeFile_of_ne _ _ _
                      (finalFilename_ne_located mdir step keyid st.files sk uf
                        hloc)
                      (hasFile_setFile_self _ _ _)
  · intro w st step prods g gh ex bp nle ls mdir uf md pub hfilt hload hexp hver
    constructor
    · simp only [in_toto_record_stop, locateUnfinished, verificationKeyid,
        hfilt, hload, hexp, hver, Option.isNone_none, Option.isNone_some,
        Bool.and_false, Bool.false_and, Bool.not_false, if_false,
        checkSigningKeyFails]
      rfl
    · exact hasFile_of_lookupFile hload

/-- A local signing key. -/
def kLocal : SigKey := ⟨"KEYLOCAL1", true⟩

/-- A preliminary link file signed by `kLocal`. -/
def mdPrelimLocal : MetadataFile :=
  MetadataFile.metablock ⟨"s", [("m", [("sha256", "h1")])], [], [],
    Byproducts.empty, []⟩ [⟨"KEYLOCAL1"⟩]

/-- A state holding the preliminary file for step `s` under `kLocal`'s
keyid prefix. -/
def stPrelimLocal : OrchState :=
  { scan := s0,
    files := [(unfinishedFilename "s" "KEYLOCAL1", mdPrelimLocal)],
    launched := [], killed := [] }

/-- An orchestrator world whose gpg key export always yields the key
`KEYOTHER1` (distinct from the key that signed any preliminary file
below). -/
def wOrchGpg : OrchWorld :=
  { scan := wEmpty, procFor := fun _ => procBurst, bufSize := 1,
    settingsTimeout := 10, cmdSchemaOk := fun _ => true,
    exportPubkey := fun _ _ => some ⟨"KEYOTHER1", false⟩,
    gpgSignKeyid := fun k _ => k }

/-- A state holding exactly one preliminary file for step `s`, signed by
`KEYAAAABBBB`. -/
def stOnePrelim : OrchState :=
  { scan := s0,
    files := [(".s.aaaaaaaa.link-unfinished", mdPrelim)],
    launched := [], killed := [] }

/-- C1 witness: a concrete successful stop (the deleted preliminary file
implies the final file exists) and a concrete key-mismatch stop (the
error is raised and the preliminary file survives). -/
theorem record_stop_deletes_only_after_final_write_witness :
    ((in_toto_record_stop wOrchLax stPrelimLocal "s" [] (some kLocal) none
        false none none none false none none).2 = Except.ok () ∧
      ∃ kid, hasFile (in_toto_record_stop wOrchLax stPrelimLocal "s" []
        (some kLocal) none false none none none false none none).1.files
        (joinDir none (finalFilename "s" kid)) = true) ∧
    (in_toto_record_stop wOrchGpg stOnePrelim "s" [] none (some "g") false
        none none none false none none =
      (stOnePrelim, Except.error OrchErr.signatureVerification) ∧
      hasFile stOnePrelim.files ".s.aaaaaaaa.link-unfinished" = true) :=
  ⟨record_stop_deletes_only_after_final_write.1 wOrchLax stPrelimLocal "s" []
      (some kLocal) none false none none none false none none _ _
      (unfinishedFilename "s" "KEYLOCAL1") rfl (by decide) (by decide),
    record_stop_deletes_only_after_final_write.2 wOrchGpg stOnePrelim "s" []
      "g" none none none false none none ".s.aaaaaaaa.link-unfinished"
      mdPrelim ⟨"KEYOTHER1", false⟩ (by decide) (by decide) (by decide)
      (by decide)⟩

/-! ## C4: excluded directories prune their whole subtree -/

theorem prefix_snoc_cases {d path : List String} {n : String}
    (h : d <+: path ++ [n]) : d = path ++ [n] ∨ d <+: path := by
  by_cases hlen : d.length = (path ++ [n]).length
  · exact Or.inl (h.eq_of_length hlen)
  · refine Or.inr (List.prefix_of_prefix_length_le h (List.prefix_append path [n]) ?_)
    have h1 := h.length_le
    simp only [List.length_append, List.length_cons, List.length_nil] at h1 hlen
    omega

theorem prefix_antisymm {a b : List String} (h1 : a <+: b) (h2 : b <+: a) :
    a = b :=
  h1.eq_of_length (Nat.le_antisymm h1.length_le h2.length_le)

theorem mem_keys_dictInsert (d : ArtifactDict) (k : String) (v : HashDict)
    (x : String) (h : x ∈ (dictInsert d k v).map Prod.fst) :
    x ∈ d.map Prod.fst ∨ x = k := by
  unfold dictInsert at h
  split at h
  · rw [List.map_map] at h
    obtain ⟨kv, hkv, hx⟩ := List.mem_map.mp h
    by_cases hk : kv.1 == k
    · right
      simp only [Function.comp, hk, if_pos] at hx
      exact hx.symm
    · left
      simp only [Function.comp, hk] at hx
      simp only [Bool.false_eq_true, if_false] at hx
      exact List.mem_map.mpr ⟨kv, hkv, hx⟩
  · rw [List.map_append] at h
    rcases List.mem_append.mp h with h2 | h2
    · exact Or.inl h2
    · right
      simpa using h2

/-- Keys accumulated by `recordFiles` with no strip prefixes: no error is
possible and every new key is the joined path of one of the file paths. -/
theorem recordFiles_none_keys (w : ScanWorld) (nle : Bool) :
    ∀ (fpaths : List (List String)) (acc : WalkAcc),
      (recordFiles w nle none fpaths acc).2 = none ∧
      ∀ x ∈ (recordFiles w nle none fpaths acc).1.dict.map Prod.fst,
        x ∈ acc.dict.map Prod.fst ∨ ∃ p ∈ fpaths, x = joinPath p := by
  intro fpaths
  induction fpaths with
  | nil => exact fun acc => ⟨rfl, fun x hx => Or.inl hx⟩
  | cons p rest ih =>
    intro acc
    rw [recordFiles]
    simp only [_apply_left_strip]
    refine ⟨(ih _).1, fun x hx => ?_⟩
    rcases (ih _).2 x hx with h2 | ⟨q, hq, hxq⟩
    · rcases mem_keys_dictInsert _ _ _ x h2 with h3 | h3
      · exact Or.inl h3
      · exact Or.inr ⟨p, List.mem_cons_self _ _, h3⟩
    · exact Or.inr ⟨q, List.mem_cons_of_mem _ hq, hxq⟩

/-- The key shape of C4: the key joins a path below a scanned root whose
strictly containing directories (from the root downwards) all failed to
match the exclusion patterns. -/
def goodKeyFrom (m : String → Bool) (root p : List String) : Prop :=
  root <+: p ∧ ∀ d, root <+: d → d <+: p → d ≠ p → m (joinPath d) = false

/-- The filtered file paths of one walk level all extend `path` by one
component and have only already-vetted proper ancestors. -/
theorem fpaths2_good (m : String → Bool) (root path : List String)
    (children : List FsNode) (hroot : root <+: path)
    (hpath : ∀ d, root <+: d → d <+: path → m (joinPath d) = false) :
    ∀ p ∈ _apply_exclude_patterns joinPath m
      (children.filterMap (fun c =>
        match c with
        | FsNode.file n => some (path ++ [n])
        | FsNode.dir _ _ => none)),
      goodKeyFrom m root p := by
  intro p hp
  obtain ⟨hpmem, _⟩ := mem_apply_exclude_patterns _ _ _ _ hp
  obtain ⟨c, _, hc⟩ := List.mem_filterMap.mp hpmem
  cases c with
  | dir n cs => exact absurd hc (by simp)
  | file n =>
    have hpeq : p = path ++ [n] := by
      simp only at hc
      injection hc with h2
      exact h2.symm
    subst hpeq
    refine ⟨hroot.trans (List.prefix_append path [n]), fun d hd1 hd2 hd3 => ?_⟩
    rcases prefix_snoc_cases hd2 with rfl | hd4
    · exact absurd rfl hd3
    · exact hpath d hd1 hd4

/-- The filtered subdirectory pairs of one walk level all extend `path`
by one component, survived the matcher themselves, and have only
already-vetted ancestors. -/
theorem dirPairs2_good (m : String → Bool) (root path : List String)
    (children : List FsNode) (hroot : root <+: path)
    (hpath : ∀ d, root <+: d → d <+: path → m (joinPath d) = false) :
    ∀ q ∈ _apply_exclude_patterns (fun pr => joinPath pr.1) m
      (children.filterMap (fun c =>
        match c with
        | FsNode.dir n cs => some (path ++ [n], cs)
        | FsNode.file _ => none)),
      root <+: q.1 ∧ ∀ d, root <+: d → d <+: q.1 → m (joinPath d) = false := by
  intro q hq
  obtain ⟨hqmem, hqm⟩ := mem_apply_exclude_patterns _ _ _ _ hq
  obtain ⟨c, _, hc⟩ := List.mem_filterMap.mp hqmem
  cases c with
  | file n => exact absurd hc (by simp)
  | dir n cs =>
    have hqeq : q = (path ++ [n], cs) := by
      simp only at hc
      injection hc with h2
      exact h2.symm
    subst hqeq
    refine ⟨hroot.trans (List.prefix_append path [n]), fun d hd1 hd2 => ?_⟩
    rcases prefix_snoc_cases hd2 with rfl | hd4
    · simpa using hqm
    · exact hpath d hd1 hd4

/-- Keys accumulated by `walkDirsWith` over a list of vetted
subdirectories, given the invariant for the one-directory step. -/
theorem walkDirsWith_keys (w : ScanWorld) (m : String → Bool) (nle : Bool)
    (root : List String) (fuel : Nat)
    (ihstep : ∀ (path : List String) (children : List FsNode) (acc : WalkAcc),
      root <+: path →
      (∀ d, root <+: d → d <+: path → m (joinPath d) = false) →
      ∀ x ∈ (walkDir w (some m) nle none fuel path children acc).1.dict.map
        Prod.fst,
        x ∈ acc.dict.map Prod.fst ∨ ∃ p, x = joinPath p ∧ goodKeyFrom m root p) :
    ∀ (pairs : List (List String × List FsNode)) (acc : WalkAcc),
      (∀ q ∈ pairs, root <+: q.1 ∧
        ∀ d, root <+: d → d <+: q.1 → m (joinPath d) = false) →
      ∀ x ∈ (walkDirsWith (walkDir w (some m) nle none fuel) pairs
        acc).1.dict.map Prod.fst,
        x ∈ acc.dict.map Prod.fst ∨ ∃ p, x = joinPath p ∧ goodKeyFrom m root p := by
  intro pairs
  induction pairs with
  | nil =>
    intro acc _ x hx
    rw [walkDirsWith] at hx
    exact Or.inl hx
  | cons q rest ihp =>
    intro acc hgood x hx
    obtain ⟨qp, qcs⟩ := q
    rw [walkDirsWith] at hx
    revert hx
    split
    · next acc2 e2 heq2 =>
      intro hx
      have h1 := congrArg (fun z => z.1.dict.map Prod.fst) heq2
      simp only at h1
      rw [← h1] at hx
      exact ihstep qp qcs acc (hgood (qp, qcs) (List.mem_cons_self _ _)).1
        (hgood (qp, qcs) (List.mem_cons_self _ _)).2 x hx
    · next acc2 heq2 =>
      intro hx
      rcases ihp acc2 (fun q2 hq2 => hgood q2 (List.mem_cons_of_mem _ hq2)) x hx
        with h2 | h2
      · have h1 := congrArg (fun z => z.1.dict.map Prod.fst) heq2
        simp only at h1
        rw [← h1] at h2
        exact ihstep qp qcs acc (hgood (qp, qcs) (List.mem_cons_self _ _)).1
          (hgood (qp, qcs) (List.mem_cons_self _ _)).2 x h2
      · exact Or.inr h2

/-- Invariant of the walk: with exclusion active and no strip prefixes,
every key added by walking `path` joins a path all of whose directories
strictly between the scanned root and the file survived the matcher
(everything from `root` down to `path` inclusive is already vetted by the
caller). -/
theorem walkDir_none_keys (w : ScanWorld) (m : String → Bool) (nle : Bool)
    (root : List String) :
    ∀ (fuel : Nat) (path : List String) (children : List FsNode)
      (acc : WalkAcc),
      root <+: path →
      (∀ d, root <+: d → d <+: path → m (joinPath d) = false) →
      ∀ x ∈ (walkDir w (some m) nle none fuel path children acc).1.dict.map
        Prod.fst,
        x ∈ acc.dict.map Prod.fst ∨ ∃ p, x = joinPath p ∧ goodKeyFrom m root p := by
  intro fuel
  induction fuel with
  | zero => exact fun path children acc _ _ x hx => Or.inl hx
  | succ fuel ih =>
    intro path children acc hroot hpath x hx
    simp only [walkDir] at hx
    revert hx
    split
    · next acc1 e heq =>
      intro hx
      have h0 := congrArg (fun z => z.1.dict.map Prod.fst) heq
      simp only at h0
      rw [← h0] at hx
      rcases (recordFiles_none_keys w nle _ acc).2 x hx with h2 | ⟨p, hp, hxp⟩
      · exact Or.inl h2
      · exact Or.inr ⟨p, hxp, fpaths2_good m root path children hroot hpath p hp⟩
    · next acc1 heq =>
      intro hx
      rcases walkDirsWith_keys w m nle root fuel (ih) _ acc1
        (dirPairs2_good m root path children hroot hpath) x hx with h2 | h2
      · have h0 := congrArg (fun z => z.1.dict.map Prod.fst) heq
        simp only at h0
        rw [← h0] at h2
        rcases (recordFiles_none_keys w nle _ acc).2 x h2 with h3 | ⟨p, hp, hxp⟩
        · exact Or.inl h3
        · exact Or.inr ⟨p, hxp, fpaths2_good m root path children hroot hpath p hp⟩
      · exact Or.inr h2

/-- Keys accumulated by the root loop: every new key comes from one of
the surviving roots with all intermediate directories vetted. -/
theorem scanRoots_keys (w : ScanWorld) (m : String → Bool) (nle : Bool)
    (forest : List FsNode) :
    ∀ (roots : List (List String)) (acc : WalkAcc),
      (∀ r ∈ roots, m (joinPath r) = false) →
      ∀ x ∈ (scanRoots w (some m) nle none forest roots acc).1.dict.map
        Prod.fst,
        x ∈ acc.dict.map Prod.fst ∨
        ∃ p root, root ∈ roots ∧ x = joinPath p ∧ goodKeyFrom m root p := by
  intro roots
  induction roots with
  | nil =>
    intro acc _ x hx
    rw [scanRoots] at hx
    exact Or.inl hx
  | cons r rest ih =>
    intro acc hgood x hx
    rw [scanRoots] at hx
    revert hx
    split
    · next hfind =>
      split
      · next acc1 e heq =>
        intro hx
        have h0 := congrArg (fun z => z.1.dict.map Prod.fst) heq
        simp only at h0
        rw [← h0] at hx
        rcases (recordFiles_none_keys w nle _ acc).2 x hx with h2 | ⟨p, hp, hxp⟩
        · exact Or.inl h2
        · have hpr : p = r := by simpa using hp
          subst hpr
          refine Or.inr ⟨p, p, List.mem_cons_self _ _, hxp, List.prefix_refl p,
            fun d hd1 hd2 hd3 => absurd (prefix_antisymm hd2 hd1) hd3⟩
      · next acc1 heq =>
        intro hx
        rcases ih acc1 (fun r2 hr2 => hgood r2 (List.mem_cons_of_mem _ hr2)) x hx
          with h2 | ⟨p, root, hroot, hxp, hgk⟩
        · have h0 := congrArg (fun z => z.1.dict.map Prod.fst) heq
          simp only at h0
          rw [← h0] at h2
          rcases (recordFiles_none_keys w nle _ acc).2 x h2 with h3 | ⟨p, hp, hxp⟩
          · exact Or.inl h3
          · have hpr : p = r := by simpa using hp
            subst hpr
            refine Or.inr ⟨p, p, List.mem_cons_self _ _, hxp, List.prefix_refl p,
              fun d hd1 hd2 hd3 => absurd (prefix_antisymm hd2 hd1) hd3⟩
        · exact Or.inr ⟨p, root, List.mem_cons_of_mem _ hroot, hxp, hgk⟩
    · next cs hfind =>
      split
      · next acc1 e heq =>
        intro hx
        have h0 := congrArg (fun z => z.1.dict.map Prod.fst) heq
        simp only at h0
        rw [← h0] at hx
        rcases walkDir_none_keys w m nle r _ r cs acc (List.prefix_refl r)
          (fun d hd1 hd2 => by
            rw [prefix_antisymm hd2 hd1]
            exact hgood r (List.mem_cons_self _ _)) x hx with h2 | ⟨p, hxp, hgk⟩
        · exact Or.inl h2
        · exact Or.inr ⟨p, r, List.mem_cons_self _ _, hxp, hgk⟩
      · next acc1 heq =>
        intro hx
        rcases ih acc1 (fun r2 hr2 => hgood r2 (List.mem_cons_of_mem _ hr2)) x hx
          with h2 | ⟨p, root, hroot, hxp, hgk⟩
        · have h0 := congrArg (fun z => z.1.dict.map Prod.fst) heq
          simp only at h0
          rw [← h0] at h2
          rcases walkDir_none_keys w m nle r _ r cs acc (List.prefix_refl r)
            (fun d hd1 hd2 => by
              rw [prefix_antisymm hd2 hd1]
              exact hgood r (List.mem_cons_self _ _)) x h2 with h3 | ⟨p, hxp, hgk⟩
          · exact Or.inl h3
          · exact Or.inr ⟨p, r, List.mem_cons_self _ _, hxp, hgk⟩
        · exact Or.inr ⟨p, root, List.mem_cons_of_mem _ hroot, hxp, hgk⟩
    · intro hx
      rcases ih acc (fun r2 hr2 => hgood r2 (List.mem_cons_of_mem _ hr2)) x hx
        with h2 | ⟨p, root, hroot, hxp, hgk⟩
      · exact Or.inl h2
      · exact Or.inr ⟨p, root, List.mem_cons_of_mem _ hroot, hxp, hgk⟩

/-- C4: the artifact map produced by `record_artifacts_as_dict` under an
exclusion matcher never contains a key whose parent directory (within the
scanned tree) matched the patterns: every key joins a path under a
surviving root such that every directory from that root down to the
file's parent failed to match — excluded subtrees are filtered before
descending and so are never visited or recorded. (Strip prefixes are
absent, so keys are whole joined paths; the root itself survived the
root-level filter.) -/
theorem record_artifacts_never_under_excluded_dir
    (w : ScanWorld) (s : ScanState) (artifacts : List (List String))
    (m : String → Bool) (fsd nle : Bool) (s2 : ScanState) (dict : ArtifactDict)
    (hsb : w.settingsBasePath = none)
    (hrec : record_artifacts_as_dict w s artifacts (some m) none fsd nle none =
      (s2, Except.ok dict)) :
    ∀ key ∈ dict.map Prod.fst,
      ∃ p root, root ∈ artifacts ∧ m (joinPath root) = false ∧
        key = joinPath p ∧ goodKeyFrom m root p := by
  intro key hkey
  unfold record_artifacts_as_dict at hrec
  by_cases hemp : artifacts.isEmpty
  · rw [if_pos hemp] at hrec
    cases hrec
    simp at hkey
  · rw [if_neg hemp] at hrec
    rw [hsb] at hrec
    simp only [recordArtifactsBody] at hrec
    rcases hsc : scanRoots w (some m) nle none (w.fsAt s.cwd)
        (_apply_exclude_patterns joinPath m artifacts) ⟨[], s.hashed⟩
      with ⟨acc, err⟩
    rw [hsc] at hrec
    cases err with
    | some e => simp at hrec
    | none =>
      have h3 : Except.ok (ε := ScanErr) acc.dict = Except.ok dict :=
        congrArg Prod.snd hrec
      injection h3 with h4
      have hx2 : key ∈ (scanRoots w (some m) nle none (w.fsAt s.cwd)
          (_apply_exclude_patterns joinPath m artifacts)
          ⟨[], s.hashed⟩).1.dict.map Prod.fst := by
        have h5 := congrArg (fun z => z.1.dict.map Prod.fst) hsc
        simp only at h5
        rw [h5, h4]
        exact hkey
      rcases scanRoots_keys w m nle (w.fsAt s.cwd)
        (_apply_exclude_patterns joinPath m artifacts) ⟨[], s.hashed⟩
        (fun r hr => (mem_apply_exclude_patterns joinPath m artifacts r hr).2)
        key hx2 with h2 | ⟨p, root, hroot, hxp, hgk⟩
      · simp at h2
      · have hra := mem_apply_exclude_patterns joinPath m artifacts root hroot
        exact ⟨p, root, hra.1, hra.2, hxp, hgk⟩

/-- A scan world containing the tree `a/{f, sub/{g}}`. -/
def wTree : ScanWorld :=
  { fsAt := fun _ =>
      [FsNode.dir "a" [FsNode.file "f", FsNode.dir "sub" [FsNode.file "g"]]],
    chdirOk := fun _ => true,
    hashFile := fun _ _ => [("sha256", "d0")],
    settingsBasePath := none,
    settingsExclude := none }

/-- C4 witness: scanning root `a` of `a/{f, sub/{g}}` while excluding
`a/sub` records only `a/f`, whose derivation the theorem certifies. -/
theorem record_artifacts_never_under_excluded_dir_witness :
    ∃ p root, root ∈ [["a"]] ∧
      (fun q => q == "a/sub") (joinPath root) = false ∧
      "a/f" = joinPath p ∧ goodKeyFrom (fun q => q == "a/sub") root p :=
  record_artifacts_never_under_excluded_dir wTree s0 [["a"]]
    (fun q => q == "a/sub") false false
    { cwd := "", hashed := ["a/f"] } [("a/f", [("sha256", "d0")])]
    rfl (by decide) "a/f" (by decide)

theorem record_artifacts_base_path_cwd_witness :
    ((record_artifacts_as_dict wEmpty s0 [["x"]] none (some "b") false false
      (some ["a", "ab"])).1.cwd = "b") ∧
    ((record_artifacts_as_dict wEmpty s0 [["x"]] none (some "b") false false
      none).1.cwd = s0.cwd) := by
  constructor
  · exact (record_artifacts_base_path_cwd wEmpty s0 [["x"]] none "b" false false
      (some ["a", "ab"]) _ _ (by decide) rfl).1 ScanErr.prefixError (by decide)
  · exact (record_artifacts_base_path_cwd wEmpty s0 [["x"]] none "b" false false
      none _ _ (by decide) rfl).2 [] (by decide)

end InToto
